import Mathlib

/-!
# dfm.c — a deterministic finite machine

Shallow embedding of `src/dfm.c`.

* The enums `DFM_States` and `DFM_Alphabet` are C integer types, so their
  values are modelled as `Int`; the enumerators are the constants below.
  A variable of enum type can hold a value outside the enumerators.
* A function whose C execution reads an object that was never written
  (the `default:` branch of `trans_func` returns the unset local
  `next_state`) or reads past the end of an array returns `none`.
* An array handed over by pointer is the list of its elements.
* `printf` output is modelled as the string written to standard output.
-/

namespace DFM

/-! ## Data model (lines 17-41) -/

/-- Values of `enum DFM_States` (lines 18-23). -/
abbrev DFM_States := Int

/-- Values of `enum DFM_Alphabet` (lines 26-29). -/
abbrev DFM_Alphabet := Int

abbrev DFM_STATE_1 : DFM_States := 0
abbrev DFM_STATE_2 : DFM_States := 1
abbrev DFM_STATE_3 : DFM_States := 2
abbrev DFM_STATE_4 : DFM_States := 3

abbrev DFM_ZERO : DFM_Alphabet := 0
abbrev DFM_ONE : DFM_Alphabet := 1

/-- Transition callback type `DFM_func_cb` (line 32).  `none` stands for a
call whose return value is indeterminate. -/
abbrev DFM_func_cb := DFM_States → DFM_Alphabet → Option DFM_States

/-- The 5-tuple `struct DFM_Machine` (lines 35-41). -/
structure DFM_Machine where
  states : List DFM_States
  alphabet : List DFM_Alphabet
  trans_func_cb : DFM_func_cb
  start_state : DFM_States
  accept_states : List DFM_States

/-! ## trans_func (lines 45-63) -/

/-- The `switch` of lines 47-61; the `default:` branch leaves `next_state`
unset, which is the `none` result. -/
def trans_func (state : DFM_States) (op : DFM_Alphabet) : Option DFM_States :=
  if state = DFM_STATE_1 then
    some (if op = DFM_ONE then DFM_STATE_3 else DFM_STATE_1)
  else if state = DFM_STATE_2 then
    some (if op = DFM_ZERO then DFM_STATE_1 else DFM_STATE_4)
  else if state = DFM_STATE_3 then
    some (if op = DFM_ZERO then DFM_STATE_4 else DFM_STATE_3)
  else if state = DFM_STATE_4 then
    some (if op = DFM_ZERO then DFM_STATE_2 else DFM_STATE_3)
  else
    none

/-! ## make_dfm (lines 66-79) -/

/-- The loop of lines 74-77 for `machine->states`: `states[i] = i` for
`i = 0, 1, 2, 3`. -/
def make_dfm_states : List DFM_States :=
  (List.range 4).map fun i => (i : Int)

/-- The loop of lines 74-77 for `machine->alphabet`: `alphabet[i] = i` for
those `i` of `0, 1, 2, 3` with `i < 2`. -/
def make_dfm_alphabet : List DFM_Alphabet :=
  ((List.range 4).filter fun i => i < 2).map fun i => (i : Int)

/-- Lines 66-79.  `mem_ok` says that the three `malloc` calls of lines 67-69
all returned a non-null pointer.  Otherwise no machine is returned, the
`none` result: line 70 leaves the program, and when it is the first
allocation that failed lines 68-69 have written through the null `machine`
before that test. -/
def make_dfm (mem_ok : Bool) (start : DFM_States) (end_states : List DFM_States)
    (func : DFM_func_cb) : Option DFM_Machine :=
  if mem_ok then
    some
      { states := make_dfm_states
        alphabet := make_dfm_alphabet
        trans_func_cb := func
        start_state := start
        accept_states := end_states }
  else
    none

/-! ## run_dfm (lines 82-94) -/

/-- What one call of `run_dfm` computes and writes. -/
structure RunResult where
  /-- Value of `next_state` after the loop of lines 85-87. -/
  next_state : DFM_States
  /-- Value of `accept_check` (line 88). -/
  accept_check : Bool
  /-- Text written to standard output (lines 89-93). -/
  output : String
  deriving DecidableEq, Repr

/-- Number of times the body of `for (int i = 1; i < n; ++i)` runs. -/
def run_dfm_iterations (n : Int) : Nat := (n - 1).toNat

/-- The loop of lines 85-87 with `k` iterations still to run, loop index `i`
and current `next_state`. -/
def run_dfm_loop (cb : DFM_func_cb) (input_str : List DFM_Alphabet) :
    Nat → Nat → DFM_States → Option DFM_States
  | 0, _, next_state => some next_state
  | k + 1, i, next_state =>
    match input_str[i]? with
    | none => none
    | some op =>
      match cb next_state op with
      | none => none
      | some s => run_dfm_loop cb input_str k (i + 1) s

/-- The loop of lines 90-92 with `k` iterations still to run and loop index
`i`: the decimal rendering (`%d`) of `input_str[i]`, one after another. -/
def run_dfm_print (input_str : List DFM_Alphabet) : Nat → Nat → Option String
  | 0, _ => some ""
  | k + 1, i =>
    match input_str[i]? with
    | none => none
    | some op =>
      match run_dfm_print input_str k (i + 1) with
      | none => none
      | some rest => some (toString op ++ rest)

/-- Lines 82-94. -/
def run_dfm (dfm : DFM_Machine) (input_str : List DFM_Alphabet) (n : Int) :
    Option RunResult :=
  let start := dfm.start_state
  match input_str[0]? with
  | none => none
  | some op0 =>
    match dfm.trans_func_cb start op0 with
    | none => none
    | some first =>
      match run_dfm_loop dfm.trans_func_cb input_str (run_dfm_iterations n) 1 first with
      | none => none
      | some next_state =>
        let accept_check := next_state == DFM_STATE_1 || next_state == DFM_STATE_3
        match run_dfm_print input_str n.toNat 0 with
        | none => none
        | some digits =>
          some
            { next_state := next_state
              accept_check := accept_check
              output := "The input string: " ++ digits ++
                (if accept_check then " is valid!\n" else " is rejected!\n") }

/-- Ghost trace of the loop of lines 85-87: the values `next_state` takes,
one per iteration, in order. -/
def run_dfm_loop_path (cb : DFM_func_cb) (input_str : List DFM_Alphabet) :
    Nat → Nat → DFM_States → Option (List DFM_States)
  | 0, _, _ => some []
  | k + 1, i, next_state =>
    match input_str[i]? with
    | none => none
    | some op =>
      match cb next_state op with
      | none => none
      | some s =>
        match run_dfm_loop_path cb input_str k (i + 1) s with
        | none => none
        | some rest => some (s :: rest)

/-- Ghost trace of lines 83-87: `start`, then the value given to `next_state`
on line 84, then its value after each iteration of the loop. -/
def run_dfm_path (dfm : DFM_Machine) (input_str : List DFM_Alphabet) (n : Int) :
    Option (List DFM_States) :=
  let start := dfm.start_state
  match input_str[0]? with
  | none => none
  | some op0 =>
    match dfm.trans_func_cb start op0 with
    | none => none
    | some first =>
      match run_dfm_loop_path dfm.trans_func_cb input_str (run_dfm_iterations n) 1 first with
      | none => none
      | some rest => some (start :: first :: rest)

/-! ## test_dfm_cmd_line (lines 97-109) -/

/-- What one call of `test_dfm_cmd_line` does: either the early return of
lines 102-104 with the text written, or the call of `run_dfm` on line 108
with its arguments and what that call computes. -/
inductive CmdResult where
  | invalid (output : String)
  | ran (input_string : List DFM_Alphabet) (n : Int) (result : Option RunResult)
  deriving DecidableEq, Repr

/-- The character `str_op[i]`: `str_op` lists the characters before the
terminating NUL, which is what is read at and after the end of the list. -/
def str_at (str_op : List Char) (i : Nat) : Char := str_op.getD i (Char.ofNat 0)

/-- The loop of lines 100-107 with `fuel` bounding the iterations still
allowed, loop index `i` and the current contents of `input_string`.
`Sum.inl c` is the early return of line 104 on the character `c`,
`Sum.inr (input_string, i)` the normal exit of the loop.  It is started
with `fuel = 100` at `i = 0` and each iteration adds one to `i`, so `fuel`
is used up only at `i = 100`, where the test `i < 100` ends the loop. -/
def cmd_line_loop (str_op : List Char) :
    Nat → Nat → List DFM_Alphabet → Char ⊕ (List DFM_Alphabet × Nat)
  | 0, i, input_string => Sum.inr (input_string, i)
  | fuel + 1, i, input_string =>
    if i < 100 ∧ str_at str_op i ≠ Char.ofNat 0 then
      if str_at str_op i ≠ '0' ∧ str_at str_op i ≠ '1' then
        Sum.inl (str_at str_op i)
      else
        cmd_line_loop str_op fuel (i + 1)
          (input_string.set i (if str_at str_op i = '1' then DFM_ONE else DFM_ZERO))
    else
      Sum.inr (input_string, i)

/-- Lines 97-109.  `stack i` is the indeterminate value that the local
array `input_string[100]` holds at index `i` before it is written. -/
def test_dfm_cmd_line (dfm : DFM_Machine) (stack : Nat → DFM_Alphabet)
    (str_op : List Char) : CmdResult :=
  match cmd_line_loop str_op 100 0 ((List.range 100).map stack) with
  | Sum.inl c =>
    CmdResult.invalid
      ("Invalid character in input string\n" ++
        String.singleton c ++ " is not a part of the machine alphabet\n")
  | Sum.inr (input_string, i) =>
    CmdResult.ran input_string i (run_dfm dfm input_string i)

/-! ## The machine of main (lines 113-114) -/

/-- The array `end_states` of line 113. -/
def end_states : List DFM_States := [DFM_STATE_1, DFM_STATE_3]

/-- The machine that line 114 builds, `make_dfm(DFM_STATE_2, end_states,
trans_func)`, when the allocations succeed. -/
def main_machine : DFM_Machine :=
  { states := make_dfm_states
    alphabet := make_dfm_alphabet
    trans_func_cb := trans_func
    start_state := DFM_STATE_2
    accept_states := end_states }

/-! ## Reading aids for the statements -/

/-- The symbols of a sequence written in decimal, one after another, in
order. -/
def render_symbols : List DFM_Alphabet → String
  | [] => ""
  | op :: rest => toString op ++ render_symbols rest

/-- The states a callback passes through on a symbol sequence from a given
state, one per symbol, in order; `run_dfm_path` is compared with it. -/
def fold_path (cb : DFM_func_cb) : DFM_States → List DFM_Alphabet → Option (List DFM_States)
  | _, [] => some []
  | st, op :: rest =>
    match cb st op with
    | none => none
    | some s =>
      match fold_path cb s rest with
      | none => none
      | some path => some (s :: path)

/-- The result of `run_dfm` (lines 88-93) when the loop of lines 85-87 ends
in `next_state` and the symbols written by lines 90-92 are `shown`. -/
def verdict (shown : List DFM_Alphabet) (next_state : DFM_States) : RunResult :=
  { next_state := next_state
    accept_check := next_state == DFM_STATE_1 || next_state == DFM_STATE_3
    output := "The input string: " ++ render_symbols shown ++
      (if (next_state == DFM_STATE_1 || next_state == DFM_STATE_3) then " is valid!\n"
        else " is rejected!\n") }

/-- The symbol that line 106 stores for a character: `DFM_ONE` for `1`,
`DFM_ZERO` otherwise. -/
def symbol_of_char (c : Char) : DFM_Alphabet := if c = '1' then DFM_ONE else DFM_ZERO

/-- Ghost trace of the loop of lines 100-107: the indices of `input_string`
that line 106 writes, in order. -/
def cmd_line_writes (str_op : List Char) : Nat → Nat → List Nat
  | 0, _ => []
  | fuel + 1, i =>
    if i < 100 ∧ str_at str_op i ≠ Char.ofNat 0 then
      if str_at str_op i ≠ '0' ∧ str_at str_op i ≠ '1' then
        []
      else
        i :: cmd_line_writes str_op fuel (i + 1)
    else
      []

end DFM

namespace DFM

/-! ## Lemmas on the loops of run_dfm -/

theorem getElem?_of_add_le {α : Type} (l : List α) (i k : Nat) (h : i + (k + 1) ≤ l.length) :
    ∃ x, l[i]? = some x ∧ (l.drop i).take (k + 1) = x :: (l.drop (i + 1)).take k := by
  have hi : i < l.length := by omega
  refine ⟨l[i], List.getElem?_eq_getElem hi, ?_⟩
  rw [List.drop_eq_getElem_cons hi, List.take_succ_cons]

/-- The loop of lines 85-87 is the left fold of the callback over the `k`
symbols from index `i` on. -/
theorem run_dfm_loop_eq_foldlM (cb : DFM_func_cb) (input_str : List DFM_Alphabet) :
    ∀ (k i : Nat) (st : DFM_States), i + k ≤ input_str.length →
      run_dfm_loop cb input_str k i st = ((input_str.drop i).take k).foldlM cb st := by
  intro k
  induction k with
  | zero => intro i st _; simp [run_dfm_loop]
  | succ k ih =>
    intro i st h
    obtain ⟨x, hx, hcons⟩ := getElem?_of_add_le input_str i k h
    rw [hcons, List.foldlM_cons]
    simp only [run_dfm_loop, hx]
    cases hcb : cb st x with
    | none => rfl
    | some s => simpa using ih (i + 1) s (by omega)

/-- The loop of lines 90-92 writes the `k` symbols from index `i` on. -/
theorem run_dfm_print_eq (input_str : List DFM_Alphabet) :
    ∀ (k i : Nat), i + k ≤ input_str.length →
      run_dfm_print input_str k i = some (render_symbols ((input_str.drop i).take k)) := by
  intro k
  induction k with
  | zero => intro i _; simp [run_dfm_print, render_symbols]
  | succ k ih =>
    intro i h
    obtain ⟨x, hx, hcons⟩ := getElem?_of_add_le input_str i k h
    rw [hcons]
    simp only [run_dfm_print, hx, ih (i + 1) (by omega), render_symbols]

theorem run_dfm_iterations_cast (n : Nat) : run_dfm_iterations (n : Int) = n - 1 := by
  unfold run_dfm_iterations
  omega

/-- What `run_dfm` computes on the first `n` symbols of a buffer that holds
at least `n ≥ 1` symbols. -/
theorem run_dfm_eq (dfm : DFM_Machine) (input_str : List DFM_Alphabet) (n : Nat)
    (h1 : 1 ≤ n) (hn : n ≤ input_str.length) :
    run_dfm dfm input_str (n : Int) =
      ((input_str.take n).foldlM dfm.trans_func_cb dfm.start_state).map
        (verdict (input_str.take n)) := by
  obtain ⟨m, rfl⟩ : ∃ m, n = m + 1 := ⟨n - 1, by omega⟩
  cases input_str with
  | nil => simp at hn
  | cons x rest =>
    have hloop := run_dfm_loop_eq_foldlM dfm.trans_func_cb (x :: rest) m 1
    have hprint := run_dfm_print_eq (x :: rest) (m + 1) 0 (by simpa using hn)
    simp only [List.drop_zero] at hprint
    simp only [run_dfm, run_dfm_iterations_cast, Int.toNat_ofNat, hprint]
    simp only [List.take_succ_cons, List.foldlM_cons, List.getElem?_cons_zero,
      Nat.add_sub_cancel]
    cases hcb : dfm.trans_func_cb dfm.start_state x with
    | none => rfl
    | some first =>
      have h2 := hloop first (by simp at hn ⊢; omega)
      simp only [List.drop_succ_cons, List.drop_zero] at h2
      simp only [h2]
      cases hf : List.foldlM dfm.trans_func_cb first (List.take m rest) with
      | none => simp [hf]
      | some st => simp [hf, verdict]

/-- The ghost trace of the loop is the state path over the `k` symbols from
index `i` on. -/
theorem run_dfm_loop_path_eq (cb : DFM_func_cb) (input_str : List DFM_Alphabet) :
    ∀ (k i : Nat) (st : DFM_States), i + k ≤ input_str.length →
      run_dfm_loop_path cb input_str k i st = fold_path cb st ((input_str.drop i).take k) := by
  intro k
  induction k with
  | zero => intro i st _; simp [run_dfm_loop_path, fold_path]
  | succ k ih =>
    intro i st h
    obtain ⟨x, hx, hcons⟩ := getElem?_of_add_le input_str i k h
    rw [hcons]
    simp only [run_dfm_loop_path, hx, fold_path]
    cases hcb : cb st x with
    | none => rfl
    | some s => simp only [ih (i + 1) s (by omega)]

/-- The ghost trace of `run_dfm` on the first `n ≥ 1` symbols of a buffer. -/
theorem run_dfm_path_eq (dfm : DFM_Machine) (input_str : List DFM_Alphabet) (n : Nat)
    (h1 : 1 ≤ n) (hn : n ≤ input_str.length) :
    run_dfm_path dfm input_str (n : Int) =
      (fold_path dfm.trans_func_cb dfm.start_state (input_str.take n)).map
        fun path => dfm.start_state :: path := by
  obtain ⟨m, rfl⟩ : ∃ m, n = m + 1 := ⟨n - 1, by omega⟩
  cases input_str with
  | nil => simp at hn
  | cons x rest =>
    have hloop := run_dfm_loop_path_eq dfm.trans_func_cb (x :: rest) m 1
    simp only [run_dfm_path, run_dfm_iterations_cast, List.take_succ_cons, fold_path,
      List.getElem?_cons_zero, Nat.add_sub_cancel]
    cases hcb : dfm.trans_func_cb dfm.start_state x with
    | none => rfl
    | some first =>
      have h2 := hloop first (by simp at hn ⊢; omega)
      simp only [List.drop_succ_cons, List.drop_zero] at h2
      simp only [h2]
      cases hf : fold_path dfm.trans_func_cb first (List.take m rest) with
      | none => simp [hf]
      | some st => simp [hf]

/-- A left fold in the `Option` monad over a callback that always returns is
the plain left fold. -/
theorem foldlM_some (f : DFM_States → DFM_Alphabet → DFM_States) :
    ∀ (l : List DFM_Alphabet) (st : DFM_States),
      l.foldlM (fun s a => some (f s a)) st = some (l.foldl f st) := by
  intro l
  induction l with
  | nil => intro st; rfl
  | cons a l ih => intro st; simp [List.foldlM_cons, ih]

/-- From a declared state `trans_func` takes one of its four cases, whatever
the symbol, and lands in a declared state. -/
theorem trans_func_closed (state : DFM_States) (op : DFM_Alphabet)
    (hs : state ∈ [DFM_STATE_1, DFM_STATE_2, DFM_STATE_3, DFM_STATE_4]) :
    ∃ nxt, trans_func state op = some nxt ∧
      nxt ∈ [DFM_STATE_1, DFM_STATE_2, DFM_STATE_3, DFM_STATE_4] := by
  simp only [List.mem_cons, List.mem_singleton, List.not_mem_nil, or_false] at hs
  rcases hs with rfl | rfl | rfl | rfl <;> simp only [trans_func] <;>
    split_ifs <;> simp

/-- From a declared state the state path of `trans_func` over any symbols
exists, has one state per symbol, stays in the declared states and ends in
the value of the left fold. -/
theorem fold_path_trans_func_closed :
    ∀ (l : List DFM_Alphabet) (st : DFM_States),
      st ∈ [DFM_STATE_1, DFM_STATE_2, DFM_STATE_3, DFM_STATE_4] →
      ∃ path, fold_path trans_func st l = some path ∧ path.length = l.length ∧
        (∀ q ∈ path, q ∈ [DFM_STATE_1, DFM_STATE_2, DFM_STATE_3, DFM_STATE_4]) ∧
        l.foldlM trans_func st = (st :: path).getLast? := by
  intro l
  induction l with
  | nil => intro st _; exact ⟨[], rfl, rfl, by simp, rfl⟩
  | cons op rest ih =>
    intro st hst
    obtain ⟨nxt, hnxt, hmem⟩ := trans_func_closed st op hst
    obtain ⟨path, hpath, hlen, hall, hlast⟩ := ih nxt hmem
    refine ⟨nxt :: path, ?_, ?_, ?_, ?_⟩
    · simp only [fold_path, hnxt, hpath]
    · simp [hlen]
    · intro q hq
      rcases List.mem_cons.mp hq with rfl | hq
      · exact hmem
      · exact hall q hq
    · rw [List.foldlM_cons, hnxt, List.getLast?_cons_cons]
      simpa using hlast

/-! ## Evaluation: run_dfm -/

/-- C1: for every machine and every sequence of `n ≥ 1` symbols (the first
`n` cells of the buffer handed to `run_dfm`), the terminal state that
`run_dfm` computes is the left fold of the machine's transition callback over
those `n` symbols, in order, from the machine's start state; with a callback
that always returns, it is the plain `List.foldl`. -/
theorem run_dfm_terminal_state_is_left_fold (dfm : DFM_Machine)
    (input_str : List DFM_Alphabet) (n : Nat) (h1 : 1 ≤ n) (hn : n ≤ input_str.length) :
    (run_dfm dfm input_str (n : Int)).map RunResult.next_state =
        (input_str.take n).foldlM dfm.trans_func_cb dfm.start_state ∧
      ∀ f : DFM_States → DFM_Alphabet → DFM_States,
        dfm.trans_func_cb = (fun s a => some (f s a)) →
        (run_dfm dfm input_str (n : Int)).map RunResult.next_state =
          some ((input_str.take n).foldl f dfm.start_state) := by
  have key : (run_dfm dfm input_str (n : Int)).map RunResult.next_state =
      (input_str.take n).foldlM dfm.trans_func_cb dfm.start_state := by
    rw [run_dfm_eq dfm input_str n h1 hn, Option.map_map]
    cases (input_str.take n).foldlM dfm.trans_func_cb dfm.start_state with
    | none => rfl
    | some st => rfl
  refine ⟨key, ?_⟩
  intro f hf
  rw [key, hf, foldlM_some]

theorem run_dfm_terminal_state_is_left_fold_witness :
    (run_dfm main_machine [DFM_ONE, DFM_ONE, DFM_ZERO, DFM_ONE] ((4 : Nat) : Int)).map
          RunResult.next_state =
        (List.take 4 [DFM_ONE, DFM_ONE, DFM_ZERO, DFM_ONE]).foldlM
          main_machine.trans_func_cb main_machine.start_state ∧
      ∀ f : DFM_States → DFM_Alphabet → DFM_States,
        main_machine.trans_func_cb = (fun s a => some (f s a)) →
        (run_dfm main_machine [DFM_ONE, DFM_ONE, DFM_ZERO, DFM_ONE] ((4 : Nat) : Int)).map
            RunResult.next_state =
          some ((List.take 4 [DFM_ONE, DFM_ONE, DFM_ZERO, DFM_ONE]).foldl f
            main_machine.start_state) :=
  run_dfm_terminal_state_is_left_fold main_machine [DFM_ONE, DFM_ONE, DFM_ZERO, DFM_ONE] 4
    (by decide) (by decide)

/-- C2 (the code at the failing input): with `n = 0` line 84 still applies
the transition callback to `input_str[0]`.  On the machine of `main` (start
`DFM_STATE_2`, which is not an accept state) and a buffer whose first cell
holds `DFM_ZERO`, `run_dfm` ends in `DFM_STATE_1` and writes
`The input string:  is valid!`; this is what `test_dfm_cmd_line` does on
the empty string when the first cell of its local array holds zero. -/
theorem run_dfm_empty_input_applies_first_cell :
    main_machine.start_state = DFM_STATE_2 ∧
      main_machine.start_state ∉ main_machine.accept_states ∧
      run_dfm main_machine [DFM_ZERO] 0 =
        some ⟨DFM_STATE_1, true, "The input string:  is valid!\n"⟩ ∧
      test_dfm_cmd_line main_machine (fun _ => DFM_ZERO) [] =
        CmdResult.ran (List.replicate 100 DFM_ZERO) 0
          (some ⟨DFM_STATE_1, true, "The input string:  is valid!\n"⟩) := by
  decide

/-- C3 (the code at the failing input): the machine that `make_dfm` builds
with the accept-state list `[DFM_STATE_2]` ends the input `1100` in
`DFM_STATE_2`, a member of its `accept_states`, and `run_dfm` writes
`is rejected!`; it ends the input `1101` in `DFM_STATE_3`, not a member, and
`run_dfm` writes `is valid!`.  Line 88 compares with `DFM_STATE_1` and
`DFM_STATE_3` and never reads `accept_states`. -/
theorem run_dfm_ignores_accept_states :
    ∃ dfm, make_dfm true DFM_STATE_2 [DFM_STATE_2] trans_func = some dfm ∧
      dfm.accept_states = [DFM_STATE_2] ∧
      run_dfm dfm [DFM_ONE, DFM_ONE, DFM_ZERO, DFM_ZERO] 4 =
        some ⟨DFM_STATE_2, false, "The input string: 1100 is rejected!\n"⟩ ∧
      DFM_STATE_2 ∈ dfm.accept_states ∧
      run_dfm dfm [DFM_ONE, DFM_ONE, DFM_ZERO, DFM_ONE] 4 =
        some ⟨DFM_STATE_3, true, "The input string: 1101 is valid!\n"⟩ ∧
      DFM_STATE_3 ∉ dfm.accept_states :=
  ⟨_, rfl, rfl, by decide, by decide, by decide, by decide⟩

/-- C4: `trans_func` is the reference transition table on all eight pairs:
1x1->3, 1x0->1, 2x0->1, 2x1->4, 3x0->4, 3x1->3, 4x0->2, 4x1->3. -/
theorem trans_func_is_reference_table :
    trans_func DFM_STATE_1 DFM_ONE = some DFM_STATE_3 ∧
      trans_func DFM_STATE_1 DFM_ZERO = some DFM_STATE_1 ∧
      trans_func DFM_STATE_2 DFM_ZERO = some DFM_STATE_1 ∧
      trans_func DFM_STATE_2 DFM_ONE = some DFM_STATE_4 ∧
      trans_func DFM_STATE_3 DFM_ZERO = some DFM_STATE_4 ∧
      trans_func DFM_STATE_3 DFM_ONE = some DFM_STATE_3 ∧
      trans_func DFM_STATE_4 DFM_ZERO = some DFM_STATE_2 ∧
      trans_func DFM_STATE_4 DFM_ONE = some DFM_STATE_3 := by
  decide

/-- C5: on a declared state and an alphabet symbol `trans_func` takes one of
its four cases (the result is not the `none` of the `default:` branch) and
returns a declared state; so for a machine with `trans_func`, a declared
start state and `n ≥ 1` alphabet symbols, `run_dfm` returns, every state on
its path (start, intermediate and terminal) is a declared state, the path
has `n + 1` states and ends in the terminal state. -/
theorem trans_func_total_and_run_dfm_stays_in_states
    (state : DFM_States) (op : DFM_Alphabet)
    (hs : state ∈ [DFM_STATE_1, DFM_STATE_2, DFM_STATE_3, DFM_STATE_4])
    (_ho : op ∈ [DFM_ZERO, DFM_ONE])
    (dfm : DFM_Machine) (hcb : dfm.trans_func_cb = trans_func)
    (hstart : dfm.start_state ∈ [DFM_STATE_1, DFM_STATE_2, DFM_STATE_3, DFM_STATE_4])
    (input_str : List DFM_Alphabet) (n : Nat) (h1 : 1 ≤ n) (hn : n ≤ input_str.length)
    (_halpha : ∀ a ∈ input_str.take n, a ∈ [DFM_ZERO, DFM_ONE]) :
    (∃ nxt, trans_func state op = some nxt ∧
        nxt ∈ [DFM_STATE_1, DFM_STATE_2, DFM_STATE_3, DFM_STATE_4]) ∧
      ∃ path r, run_dfm_path dfm input_str (n : Int) = some path ∧
        run_dfm dfm input_str (n : Int) = some r ∧
        path.length = n + 1 ∧
        (∀ q ∈ path, q ∈ [DFM_STATE_1, DFM_STATE_2, DFM_STATE_3, DFM_STATE_4]) ∧
        path.getLast? = some r.next_state := by
  refine ⟨trans_func_closed state op hs, ?_⟩
  obtain ⟨path, hpath, hlen, hall, hlast⟩ :=
    fold_path_trans_func_closed (input_str.take n) dfm.start_state hstart
  have hlast2 := hlast
  cases hfold : (input_str.take n).foldlM trans_func dfm.start_state with
  | none =>
    rw [hfold] at hlast2
    simp [List.getLast?_cons] at hlast2
  | some term =>
    refine ⟨dfm.start_state :: path, verdict (input_str.take n) term, ?_, ?_, ?_, ?_, ?_⟩
    · rw [run_dfm_path_eq dfm input_str n h1 hn, hcb, hpath]; rfl
    · rw [run_dfm_eq dfm input_str n h1 hn, hcb, hfold]; rfl
    · simp [hlen, List.length_take, Nat.min_eq_left hn]
    · intro q hq
      rcases List.mem_cons.mp hq with rfl | hq
      · exact hstart
      · exact hall q hq
    · rw [← hlast, hfold]; rfl

theorem trans_func_total_and_run_dfm_stays_in_states_witness :
    (∃ nxt, trans_func DFM_STATE_4 DFM_ZERO = some nxt ∧
        nxt ∈ [DFM_STATE_1, DFM_STATE_2, DFM_STATE_3, DFM_STATE_4]) ∧
      ∃ path r, run_dfm_path main_machine [DFM_ONE, DFM_ZERO, DFM_ZERO] ((3 : Nat) : Int) =
          some path ∧
        run_dfm main_machine [DFM_ONE, DFM_ZERO, DFM_ZERO] ((3 : Nat) : Int) = some r ∧
        path.length = 3 + 1 ∧
        (∀ q ∈ path, q ∈ [DFM_STATE_1, DFM_STATE_2, DFM_STATE_3, DFM_STATE_4]) ∧
        path.getLast? = some r.next_state :=
  trans_func_total_and_run_dfm_stays_in_states DFM_STATE_4 DFM_ZERO (by decide) (by decide)
    main_machine rfl (by decide) [DFM_ONE, DFM_ZERO, DFM_ZERO] 3 (by decide) (by decide)
    (by decide)

/-- C6: the machine of `main` (start `DFM_STATE_2`, accept list
`DFM_STATE_1, DFM_STATE_3`, transition `trans_func`) on the input `1,1,0,1`
follows the path 2->4->3->4->3, ends in `DFM_STATE_3` and writes
`The input string: 1101 is valid!`. -/
theorem run_dfm_accepts_1101 :
    make_dfm true DFM_STATE_2 [DFM_STATE_1, DFM_STATE_3] trans_func = some main_machine ∧
      run_dfm_path main_machine [DFM_ONE, DFM_ONE, DFM_ZERO, DFM_ONE] 4 =
        some [DFM_STATE_2, DFM_STATE_4, DFM_STATE_3, DFM_STATE_4, DFM_STATE_3] ∧
      run_dfm main_machine [DFM_ONE, DFM_ONE, DFM_ZERO, DFM_ONE] 4 =
        some ⟨DFM_STATE_3, true, "The input string: 1101 is valid!\n"⟩ :=
  ⟨rfl, by decide, by decide⟩

/-- C7: the machine of `main` on the input `1,1,0,0` follows the path
2->4->3->4->2, ends in `DFM_STATE_2` and writes
`The input string: 1100 is rejected!`. -/
theorem run_dfm_rejects_1100 :
    make_dfm true DFM_STATE_2 [DFM_STATE_1, DFM_STATE_3] trans_func = some main_machine ∧
      run_dfm_path main_machine [DFM_ONE, DFM_ONE, DFM_ZERO, DFM_ZERO] 4 =
        some [DFM_STATE_2, DFM_STATE_4, DFM_STATE_3, DFM_STATE_4, DFM_STATE_2] ∧
      run_dfm main_machine [DFM_ONE, DFM_ONE, DFM_ZERO, DFM_ZERO] 4 =
        some ⟨DFM_STATE_2, false, "The input string: 1100 is rejected!\n"⟩ :=
  ⟨rfl, by decide, by decide⟩

/-- C8: the machine of `main` on the single-symbol input `1` follows the
path 2->4 with no iteration of the loop of lines 85-87, ends in
`DFM_STATE_4` and writes `The input string: 1 is rejected!`. -/
theorem run_dfm_rejects_single_one :
    make_dfm true DFM_STATE_2 [DFM_STATE_1, DFM_STATE_3] trans_func = some main_machine ∧
      run_dfm_iterations 1 = 0 ∧
      run_dfm_path main_machine [DFM_ONE] 1 = some [DFM_STATE_2, DFM_STATE_4] ∧
      run_dfm main_machine [DFM_ONE] 1 =
        some ⟨DFM_STATE_4, false, "The input string: 1 is rejected!\n"⟩ :=
  ⟨rfl, by decide, by decide, by decide⟩

/-- C9 (counterexample): on the machine of `main` the input `1,5,0`, whose
symbol at position 1 is outside the alphabet, is consumed to the end:
`trans_func` is applied to the symbol 5 (the path goes on 2->4->3->4) and
`run_dfm` writes a verdict. -/
theorem run_dfm_out_of_alphabet_symbol_gets_verdict :
    (5 : DFM_Alphabet) ∉ [DFM_ZERO, DFM_ONE] ∧
      trans_func DFM_STATE_4 5 = some DFM_STATE_3 ∧
      run_dfm_path main_machine [DFM_ONE, 5, DFM_ZERO] 3 =
        some [DFM_STATE_2, DFM_STATE_4, DFM_STATE_3, DFM_STATE_4] ∧
      run_dfm main_machine [DFM_ONE, 5, DFM_ZERO] 3 =
        some ⟨DFM_STATE_4, false, "The input string: 150 is rejected!\n"⟩ := by
  decide

/-- C9 (amended): `run_dfm` makes no alphabet test.  For a machine with
`trans_func` and a declared start state, every sequence of `n ≥ 1` symbols
that has a symbol outside the alphabet at some position is consumed to the
end and gets a verdict: the terminal state is the left fold of `trans_func`
over all `n` symbols and is a declared state, and the line written ends in
`is valid!` or `is rejected!`; `trans_func` reads a symbol outside the
alphabet as `DFM_ZERO` in `DFM_STATE_1` and as `DFM_ONE` in the other three
states. -/
theorem run_dfm_makes_no_alphabet_test
    (dfm : DFM_Machine) (hcb : dfm.trans_func_cb = trans_func)
    (hstart : dfm.start_state ∈ [DFM_STATE_1, DFM_STATE_2, DFM_STATE_3, DFM_STATE_4])
    (input_str : List DFM_Alphabet) (n : Nat) (h1 : 1 ≤ n) (hn : n ≤ input_str.length)
    (pos : Nat) (bad : DFM_Alphabet) (_hpos : (input_str.take n)[pos]? = some bad)
    (hbad : bad ∉ [DFM_ZERO, DFM_ONE]) :
    (∃ term, (input_str.take n).foldlM trans_func dfm.start_state = some term ∧
        term ∈ [DFM_STATE_1, DFM_STATE_2, DFM_STATE_3, DFM_STATE_4] ∧
        run_dfm dfm input_str (n : Int) = some (verdict (input_str.take n) term)) ∧
      trans_func DFM_STATE_1 bad = trans_func DFM_STATE_1 DFM_ZERO ∧
      trans_func DFM_STATE_2 bad = trans_func DFM_STATE_2 DFM_ONE ∧
      trans_func DFM_STATE_3 bad = trans_func DFM_STATE_3 DFM_ONE ∧
      trans_func DFM_STATE_4 bad = trans_func DFM_STATE_4 DFM_ONE := by
  obtain ⟨path, _, _, hall, hlast⟩ :=
    fold_path_trans_func_closed (input_str.take n) dfm.start_state hstart
  have h0 : bad ≠ 0 := fun h => hbad (by simp [h])
  have h1b : bad ≠ 1 := fun h => hbad (by simp [h])
  refine ⟨?_, ?_, ?_, ?_, ?_⟩
  · cases hfold : (input_str.take n).foldlM trans_func dfm.start_state with
    | none =>
      rw [hfold] at hlast
      simp [List.getLast?_cons] at hlast
    | some term =>
      refine ⟨term, rfl, ?_, ?_⟩
      · rw [hfold] at hlast
        have hmem : term ∈ dfm.start_state :: path :=
          List.mem_of_getLast?_eq_some hlast.symm
        rcases List.mem_cons.mp hmem with rfl | hq
        · exact hstart
        · exact hall term hq
      · rw [run_dfm_eq dfm input_str n h1 hn, hcb, hfold]; rfl
  all_goals simp [trans_func, h0, h1b]

theorem run_dfm_makes_no_alphabet_test_witness :
    (∃ term, (List.take 3 [DFM_ONE, 5, DFM_ZERO]).foldlM trans_func main_machine.start_state =
          some term ∧
        term ∈ [DFM_STATE_1, DFM_STATE_2, DFM_STATE_3, DFM_STATE_4] ∧
        run_dfm main_machine [DFM_ONE, 5, DFM_ZERO] ((3 : Nat) : Int) =
          some (verdict (List.take 3 [DFM_ONE, 5, DFM_ZERO]) term)) ∧
      trans_func DFM_STATE_1 5 = trans_func DFM_STATE_1 DFM_ZERO ∧
      trans_func DFM_STATE_2 5 = trans_func DFM_STATE_2 DFM_ONE ∧
      trans_func DFM_STATE_3 5 = trans_func DFM_STATE_3 DFM_ONE ∧
      trans_func DFM_STATE_4 5 = trans_func DFM_STATE_4 DFM_ONE :=
  run_dfm_makes_no_alphabet_test main_machine rfl (by decide) [DFM_ONE, 5, DFM_ZERO] 3
    (by decide) (by decide) 1 5 (by decide) (by decide)

/-! ## The command-line adapter: test_dfm_cmd_line -/

/-- The loop of lines 100-107 returns early on the first character that is
neither `0` nor `1`, when it stands before index 100 and the end of the
string. -/
theorem cmd_line_loop_invalid (str_op : List Char) (j : Nat) (hj : j < 100)
    (hbad0 : str_at str_op j ≠ '0') (hbad1 : str_at str_op j ≠ '1')
    (hnul : str_at str_op j ≠ Char.ofNat 0) :
    ∀ (fuel i : Nat) (input_string : List DFM_Alphabet), i ≤ j → j < i + fuel →
      (∀ t, i ≤ t → t < j → str_at str_op t = '0' ∨ str_at str_op t = '1') →
      cmd_line_loop str_op fuel i input_string = Sum.inl (str_at str_op j) := by
  intro fuel
  induction fuel with
  | zero => intro i _ hij hlt _; omega
  | succ fuel ih =>
    intro i input_string hij hlt hgood
    rcases Nat.eq_or_lt_of_le hij with rfl | hlt2
    · simp [cmd_line_loop, hj, hbad0, hbad1, hnul]
    · have hi : i < 100 := by omega
      have hnul2 : str_at str_op i ≠ Char.ofNat 0 := by
        rcases hgood i (Nat.le_refl i) hlt2 with h | h <;> rw [h] <;> decide
      have hvalid : ¬ (str_at str_op i ≠ '0' ∧ str_at str_op i ≠ '1') := by
        rcases hgood i (Nat.le_refl i) hlt2 with h | h <;> simp [h]
      rw [cmd_line_loop, if_pos ⟨hi, hnul2⟩, if_neg hvalid]
      exact ih (i + 1) _ hlt2 (by omega) fun t ht1 ht2 => hgood t (by omega) ht2

/-- On a string whose first character other than `0` and `1` stands at an
index `j < 100`, `test_dfm_cmd_line` takes the early return of line 104 and
names that character. -/
theorem test_dfm_cmd_line_invalid_at (dfm : DFM_Machine) (stack : Nat → DFM_Alphabet)
    (str_op : List Char) (j : Nat) (hj : j < 100)
    (hbad0 : str_at str_op j ≠ '0') (hbad1 : str_at str_op j ≠ '1')
    (hnul : str_at str_op j ≠ Char.ofNat 0)
    (hgood : ∀ t, t < j → str_at str_op t = '0' ∨ str_at str_op t = '1') :
    test_dfm_cmd_line dfm stack str_op =
      CmdResult.invalid
        ("Invalid character in input string\n" ++
          String.singleton (str_at str_op j) ++ " is not a part of the machine alphabet\n") := by
  unfold test_dfm_cmd_line
  rw [cmd_line_loop_invalid str_op j hj hbad0 hbad1 hnul 100 0 _ (Nat.zero_le j) (by omega)
    fun t _ ht => hgood t ht]

/-- Below the length of the string `str_op[i]` is a character of it. -/
theorem str_at_mem (str_op : List Char) (i : Nat) (h : i < str_op.length) :
    str_at str_op i ∈ str_op := by
  unfold str_at
  rw [List.getD_eq_getElem str_op (Char.ofNat 0) h]
  exact List.getElem_mem h

theorem str_at_of_getElem? (str_op : List Char) (i : Nat) (c : Char)
    (h : str_op[i]? = some c) : str_at str_op i = c := by
  unfold str_at
  simp [h]

set_option maxRecDepth 100000 in
/-- C10 (counterexample): the string of one hundred `0` followed by `x`
contains a character other than `0` and `1`, and `test_dfm_cmd_line` calls
`run_dfm` on its first 100 symbols, which writes a verdict. -/
theorem test_dfm_cmd_line_runs_on_late_invalid_character :
    'x' ∈ List.replicate 100 '0' ++ ['x'] ∧ 'x' ≠ '0' ∧ 'x' ≠ '1' ∧
      test_dfm_cmd_line main_machine (fun _ => DFM_ZERO) (List.replicate 100 '0' ++ ['x']) =
        CmdResult.ran (List.replicate 100 DFM_ZERO) 100
          (some ⟨DFM_STATE_1, true,
            "The input string: " ++ String.mk (List.replicate 100 '0') ++ " is valid!\n"⟩) := by
  decide

/-- C10 (amended): for every command-line string (the characters before the
terminating NUL) that has a character other than `0` and `1` among its first
100 characters, `test_dfm_cmd_line` takes the early return with the
invalid-character message, which names a character of the string that is
neither `0` nor `1`, and does not call `run_dfm`. -/
theorem test_dfm_cmd_line_rejects_invalid_in_first_100 (dfm : DFM_Machine)
    (stack : Nat → DFM_Alphabet) (str_op : List Char) (hstr : Char.ofNat 0 ∉ str_op)
    (k : Nat) (c : Char) (hk : k < 100) (hc : str_op[k]? = some c)
    (hc0 : c ≠ '0') (hc1 : c ≠ '1') :
    ∃ b, b ∈ str_op ∧ b ≠ '0' ∧ b ≠ '1' ∧
      test_dfm_cmd_line dfm stack str_op =
        CmdResult.invalid
          ("Invalid character in input string\n" ++
            String.singleton b ++ " is not a part of the machine alphabet\n") := by
  have hklen : k < str_op.length := by
    rcases Nat.lt_or_ge k str_op.length with h | h
    · exact h
    · rw [List.getElem?_eq_none h] at hc; cases hc
  have hex : ∃ t, t < str_op.length ∧ str_at str_op t ≠ '0' ∧ str_at str_op t ≠ '1' :=
    ⟨k, hklen, by rw [str_at_of_getElem? str_op k c hc]; exact ⟨hc0, hc1⟩⟩
  obtain ⟨hjlen, hj0, hj1⟩ := Nat.find_spec hex
  have hjk : Nat.find hex ≤ k := Nat.find_min' hex
    ⟨hklen, by rw [str_at_of_getElem? str_op k c hc]; exact ⟨hc0, hc1⟩⟩
  have hmem := str_at_mem str_op (Nat.find hex) hjlen
  refine ⟨str_at str_op (Nat.find hex), hmem, hj0, hj1, ?_⟩
  refine test_dfm_cmd_line_invalid_at dfm stack str_op (Nat.find hex) (by omega) hj0 hj1
    (fun h => hstr (h ▸ hmem)) ?_
  intro t ht
  have hnot := Nat.find_min hex ht
  by_contra hcon
  push_neg at hcon
  exact hnot ⟨by omega, hcon.1, hcon.2⟩

theorem test_dfm_cmd_line_rejects_invalid_in_first_100_witness :
    ∃ b, b ∈ ['1', '0', 'a', '1'] ∧ b ≠ '0' ∧ b ≠ '1' ∧
      test_dfm_cmd_line main_machine (fun _ => DFM_ZERO) ['1', '0', 'a', '1'] =
        CmdResult.invalid
          ("Invalid character in input string\n" ++
            String.singleton b ++ " is not a part of the machine alphabet\n") :=
  test_dfm_cmd_line_rejects_invalid_in_first_100 main_machine (fun _ => DFM_ZERO)
    ['1', '0', 'a', '1'] (by decide) 2 'a' (by decide) (by decide) (by decide) (by decide)

/-! ## The command-line adapter on strings of `0` and `1` -/

/-- While the characters are `0` or `1` the loop of lines 100-107 stores
their symbols cell by cell: started at index `i` on a buffer `pre ++ post`
with `i` cells before and `fuel` cells from `i` on, it leaves `pre`, then
the symbols of the characters from `i` on (at most `fuel`), then the cells
of `post` it did not reach, and exits with `i` plus the number stored. -/
theorem cmd_line_loop_valid (str_op : List Char) :
    ∀ (fuel i : Nat) (pre post : List DFM_Alphabet),
      pre.length = i → post.length = fuel → i + fuel = 100 →
      (∀ c ∈ (str_op.drop i).take fuel, c = '0' ∨ c = '1') →
      cmd_line_loop str_op fuel i (pre ++ post) =
        Sum.inr
          (pre ++ (((str_op.drop i).take fuel).map symbol_of_char ++
              post.drop ((str_op.drop i).take fuel).length),
            i + ((str_op.drop i).take fuel).length) := by
  intro fuel
  induction fuel with
  | zero =>
    intro i pre post _ hpost _ _
    simp [cmd_line_loop]
  | succ fuel ih =>
    intro i pre post hpre hpost hsum hvalid
    have hi : i < 100 := by omega
    rcases Nat.lt_or_ge i str_op.length with hlt | hge
    · have hdrop : (str_op.drop i).take (fuel + 1) =
          str_op[i] :: (str_op.drop (i + 1)).take fuel := by
        rw [List.drop_eq_getElem_cons hlt, List.take_succ_cons]
      have hat : str_at str_op i = str_op[i] := by
        unfold str_at
        exact List.getD_eq_getElem str_op (Char.ofNat 0) hlt
      rw [hdrop] at hvalid ⊢
      have hci : str_op[i] = '0' ∨ str_op[i] = '1' := hvalid _ (List.mem_cons_self _ _)
      have hnul : str_at str_op i ≠ Char.ofNat 0 := by
        rw [hat]; rcases hci with h | h <;> rw [h] <;> decide
      have hok : ¬ (str_at str_op i ≠ '0' ∧ str_at str_op i ≠ '1') := by
        rw [hat]; rcases hci with h | h <;> simp [h]
      obtain ⟨x, post2, rfl⟩ : ∃ x post2, post = x :: post2 := by
        cases post with
        | nil => simp at hpost
        | cons x post2 => exact ⟨x, post2, rfl⟩
      have hset : (pre ++ x :: post2).set i (symbol_of_char str_op[i]) =
          (pre ++ [symbol_of_char str_op[i]]) ++ post2 := by
        subst hpre
        simp
      rw [cmd_line_loop, if_pos ⟨hi, hnul⟩, if_neg hok, hat]
      change cmd_line_loop str_op fuel (i + 1)
        ((pre ++ x :: post2).set i (symbol_of_char str_op[i])) = _
      rw [hset, ih (i + 1) (pre ++ [symbol_of_char str_op[i]]) post2 (by simp [hpre])
        (by simpa using hpost) (by omega)
        (fun c hc => hvalid c (List.mem_cons_of_mem _ hc))]
      simp [Nat.add_assoc, Nat.add_comm 1]
    · have hdrop : str_op.drop i = [] := List.drop_eq_nil_of_le hge
      have hat : str_at str_op i = Char.ofNat 0 := by
        unfold str_at
        exact List.getD_eq_default str_op (Char.ofNat 0) hge
      rw [cmd_line_loop, if_neg (by simp [hat]), hdrop]
      simp

/-- On a string whose first 100 characters are `0` or `1`,
`test_dfm_cmd_line` reaches line 108: the buffer holds the symbols of those
characters followed by the cells never written, and `n` is their number. -/
theorem test_dfm_cmd_line_valid (dfm : DFM_Machine) (stack : Nat → DFM_Alphabet)
    (str_op : List Char) (hvalid : ∀ c ∈ str_op.take 100, c = '0' ∨ c = '1') :
    test_dfm_cmd_line dfm stack str_op =
      CmdResult.ran
        ((str_op.take 100).map symbol_of_char ++
          ((List.range 100).map stack).drop (str_op.take 100).length)
        ((str_op.take 100).length : Nat)
        (run_dfm dfm
          ((str_op.take 100).map symbol_of_char ++
            ((List.range 100).map stack).drop (str_op.take 100).length)
          ((str_op.take 100).length : Nat)) := by
  have h := cmd_line_loop_valid str_op 100 0 [] ((List.range 100).map stack) rfl
    (by simp) rfl (by simpa using hvalid)
  simp only [List.nil_append, List.drop_zero, Nat.zero_add] at h
  unfold test_dfm_cmd_line
  rw [h]

/-- The indices written by the loop of lines 100-107 while the characters
are `0` or `1`: `i`, `i + 1`, ... one per character stored. -/
theorem cmd_line_writes_valid (str_op : List Char) :
    ∀ (fuel i : Nat), i + fuel = 100 →
      (∀ c ∈ (str_op.drop i).take fuel, c = '0' ∨ c = '1') →
      cmd_line_writes str_op fuel i = List.range' i ((str_op.drop i).take fuel).length := by
  intro fuel
  induction fuel with
  | zero => intro i _ _; simp [cmd_line_writes]
  | succ fuel ih =>
    intro i hsum hvalid
    have hi : i < 100 := by omega
    rcases Nat.lt_or_ge i str_op.length with hlt | hge
    · have hdrop : (str_op.drop i).take (fuel + 1) =
          str_op[i] :: (str_op.drop (i + 1)).take fuel := by
        rw [List.drop_eq_getElem_cons hlt, List.take_succ_cons]
      have hat : str_at str_op i = str_op[i] := by
        unfold str_at
        exact List.getD_eq_getElem str_op (Char.ofNat 0) hlt
      rw [hdrop] at hvalid ⊢
      have hci : str_op[i] = '0' ∨ str_op[i] = '1' := hvalid _ (List.mem_cons_self _ _)
      have hnul : str_at str_op i ≠ Char.ofNat 0 := by
        rw [hat]; rcases hci with h | h <;> rw [h] <;> decide
      have hok : ¬ (str_at str_op i ≠ '0' ∧ str_at str_op i ≠ '1') := by
        rw [hat]; rcases hci with h | h <;> simp [h]
      rw [cmd_line_writes, if_pos ⟨hi, hnul⟩, if_neg hok,
        ih (i + 1) (by omega) (fun c hc => hvalid c (List.mem_cons_of_mem _ hc))]
      simp [List.range'_succ]
    · have hdrop : str_op.drop i = [] := List.drop_eq_nil_of_le hge
      have hat : str_at str_op i = Char.ofNat 0 := by
        unfold str_at
        exact List.getD_eq_default str_op (Char.ofNat 0) hge
      rw [cmd_line_writes, if_neg (by simp [hat]), hdrop]
      simp

/-- Every index that the loop of lines 100-107 writes is below 100, the
size of `input_string`, whatever the string. -/
theorem cmd_line_writes_lt (str_op : List Char) :
    ∀ (fuel i : Nat), ∀ k ∈ cmd_line_writes str_op fuel i, k < 100 := by
  intro fuel
  induction fuel with
  | zero => intro i k hk; simp [cmd_line_writes] at hk
  | succ fuel ih =>
    intro i k hk
    rw [cmd_line_writes] at hk
    split_ifs at hk with h1 h2
    · simp at hk
    · rcases List.mem_cons.mp hk with rfl | hk2
      · exact h1.1
      · exact ih (i + 1) k hk2
    · simp at hk

/-- The decimal rendering of the symbols stored for characters `0` and `1`
is the string of those characters. -/
theorem render_symbols_of_chars :
    ∀ (l : List Char), (∀ c ∈ l, c = '0' ∨ c = '1') →
      render_symbols (l.map symbol_of_char) = String.mk l := by
  intro l
  induction l with
  | nil => intro _; rfl
  | cons c l ih =>
    intro h
    have hc := h c (List.mem_cons_self _ _)
    simp only [List.map_cons, render_symbols, ih fun d hd => h d (List.mem_cons_of_mem _ hd)]
    rcases hc with rfl | rfl
    · apply String.ext; simp [symbol_of_char]; rfl
    · apply String.ext; simp [symbol_of_char]; rfl

/-! ## Construction: make_dfm -/

/-- C11 (counterexample): handed the start value 7 and the accept-state list
`[9]`, neither a declared state, `make_dfm` returns a machine that stores
both. -/
theorem make_dfm_returns_machine_for_undeclared_states :
    ∃ dfm, make_dfm true 7 [9] trans_func = some dfm ∧
      dfm.start_state = 7 ∧ (7 : DFM_States) ∉ dfm.states ∧
      dfm.accept_states = [9] ∧ (9 : DFM_States) ∈ dfm.accept_states ∧
      (9 : DFM_States) ∉ dfm.states :=
  ⟨_, rfl, rfl, by decide, rfl, by decide, by decide⟩

/-- C11 (amended): for every tuple handed to `make_dfm` whose start value
is not one of the four declared states, or whose accept-state list holds a
value that is not one of them, construction does not fail with a validation
error: `make_dfm` checks neither, and with its allocations succeeding it
returns a machine that stores the start value and the list as given. -/
theorem make_dfm_does_not_validate (start : DFM_States) (end_states : List DFM_States)
    (func : DFM_func_cb)
    (_hbad : start ∉ [DFM_STATE_1, DFM_STATE_2, DFM_STATE_3, DFM_STATE_4] ∨
      ∃ a ∈ end_states, a ∉ [DFM_STATE_1, DFM_STATE_2, DFM_STATE_3, DFM_STATE_4]) :
    ∃ dfm, make_dfm true start end_states func = some dfm ∧
      dfm.start_state = start ∧ dfm.accept_states = end_states :=
  ⟨_, rfl, rfl, rfl⟩

theorem make_dfm_does_not_validate_witness :
    ∃ dfm, make_dfm true 7 [DFM_STATE_1, 9] trans_func = some dfm ∧
      dfm.start_state = 7 ∧ dfm.accept_states = [DFM_STATE_1, 9] :=
  make_dfm_does_not_validate 7 [DFM_STATE_1, 9] trans_func (Or.inl (by decide))

/-! ## Evaluation: what the result of run_dfm depends on -/

/-- The terminal state of `run_dfm` on the first `n ≥ 1` symbols of a
buffer is the left fold of the callback over them. -/
theorem run_dfm_next_state_eq (dfm : DFM_Machine) (input_str : List DFM_Alphabet) (n : Nat)
    (h1 : 1 ≤ n) (hn : n ≤ input_str.length) :
    (run_dfm dfm input_str (n : Int)).map RunResult.next_state =
      (input_str.take n).foldlM dfm.trans_func_cb dfm.start_state := by
  rw [run_dfm_eq dfm input_str n h1 hn, Option.map_map]
  cases (input_str.take n).foldlM dfm.trans_func_cb dfm.start_state with
  | none => rfl
  | some st => rfl

/-- With `n ≥ 1` the result of `run_dfm` is the same on two buffers that
hold the same first `n` symbols. -/
theorem run_dfm_depends_on_first_n (dfm : DFM_Machine) (buf1 buf2 : List DFM_Alphabet)
    (n : Nat) (h1 : 1 ≤ n) (hn1 : n ≤ buf1.length) (hn2 : n ≤ buf2.length)
    (hsame : buf1.take n = buf2.take n) :
    run_dfm dfm buf1 (n : Int) = run_dfm dfm buf2 (n : Int) := by
  rw [run_dfm_eq dfm buf1 n h1 hn1, run_dfm_eq dfm buf2 n h1 hn2, hsame]

/-- C12 (the code at the failing input): with `n = 0` two calls of
`run_dfm` on the machine of `main` with the same (empty) sequence of
symbols differ in terminal state, verdict and printed line when the cell
`input_str[0]`, which is no part of the sequence, differs; so do two calls
of `test_dfm_cmd_line` on the empty string that find different values in
the first cell of the unwritten local array. -/
theorem run_dfm_empty_input_depends_on_first_cell :
    List.take 0 [DFM_ZERO] = List.take 0 [DFM_ONE] ∧
      run_dfm main_machine [DFM_ZERO] 0 =
        some ⟨DFM_STATE_1, true, "The input string:  is valid!\n"⟩ ∧
      run_dfm main_machine [DFM_ONE] 0 =
        some ⟨DFM_STATE_4, false, "The input string:  is rejected!\n"⟩ ∧
      test_dfm_cmd_line main_machine (fun _ => DFM_ZERO) [] =
        CmdResult.ran (List.replicate 100 DFM_ZERO) 0
          (some ⟨DFM_STATE_1, true, "The input string:  is valid!\n"⟩) ∧
      test_dfm_cmd_line main_machine (fun _ => DFM_ONE) [] =
        CmdResult.ran (List.replicate 100 DFM_ONE) 0
          (some ⟨DFM_STATE_4, false, "The input string:  is rejected!\n"⟩) := by
  decide

/-- The decimal rendering of symbols `DFM_ZERO` and `DFM_ONE` is the string
of the digits `0` and `1`. -/
theorem render_symbols_of_bits :
    ∀ (l : List DFM_Alphabet), (∀ a ∈ l, a = DFM_ZERO ∨ a = DFM_ONE) →
      render_symbols l = String.mk (l.map fun a => if a = DFM_ONE then '1' else '0') := by
  intro l
  induction l with
  | nil => intro _; rfl
  | cons a l ih =>
    intro h
    have ha := h a (List.mem_cons_self _ _)
    simp only [List.map_cons, render_symbols, ih fun d hd => h d (List.mem_cons_of_mem _ hd)]
    rcases ha with rfl | rfl
    · apply String.ext; simp; rfl
    · apply String.ext; simp; rfl

/-- C13: for every machine and every non-empty sequence `s` of symbols
`DFM_ZERO`, `DFM_ONE`, whenever the callback returns on every step `run_dfm`
returns, and the line it writes is `The input string: `, then the symbols of
`s` as the digits `0` and `1` in order, then ` is valid!` and a newline when
the terminal state is accepting (`DFM_STATE_1` or `DFM_STATE_3`, line 88)
and ` is rejected!` and a newline otherwise; with `trans_func` and a
declared start state the callback returns on every step, and for a machine
with the accept list of `main` the accepting states are the members of its
`accept_states`. -/
theorem run_dfm_prints_input_and_verdict (dfm : DFM_Machine) (s : List DFM_Alphabet)
    (hne : s ≠ []) (hs : ∀ a ∈ s, a = DFM_ZERO ∨ a = DFM_ONE) :
    run_dfm dfm s (s.length : Nat) =
        (s.foldlM dfm.trans_func_cb dfm.start_state).map (fun term =>
          { next_state := term
            accept_check := decide (term = DFM_STATE_1 ∨ term = DFM_STATE_3)
            output := "The input string: " ++
              String.mk (s.map fun a => if a = DFM_ONE then '1' else '0') ++
              (if term = DFM_STATE_1 ∨ term = DFM_STATE_3 then " is valid!\n"
                else " is rejected!\n") }) ∧
      (dfm.trans_func_cb = trans_func →
        dfm.start_state ∈ [DFM_STATE_1, DFM_STATE_2, DFM_STATE_3, DFM_STATE_4] →
        ∃ term, s.foldlM dfm.trans_func_cb dfm.start_state = some term) ∧
      (dfm.accept_states = [DFM_STATE_1, DFM_STATE_3] →
        ∀ term, term ∈ dfm.accept_states ↔ (term = DFM_STATE_1 ∨ term = DFM_STATE_3)) := by
  have hlen : 1 ≤ s.length := by
    cases s with
    | nil => exact absurd rfl hne
    | cons a l => simp
  refine ⟨?_, ?_, ?_⟩
  · rw [run_dfm_eq dfm s s.length hlen (Nat.le_refl _), List.take_length]
    congr 1
    funext term
    simp only [verdict, render_symbols_of_bits s hs]
    by_cases h : term = DFM_STATE_1 ∨ term = DFM_STATE_3
    · rcases h with rfl | rfl <;> simp
    · have h0 : term ≠ 0 := fun e => h (Or.inl e)
      have h2 : term ≠ 2 := fun e => h (Or.inr e)
      simp [h0, h2]
  · intro hcb hstart
    obtain ⟨path, _, _, _, hlast⟩ := fold_path_trans_func_closed s dfm.start_state hstart
    rw [hcb]
    cases hfold : s.foldlM trans_func dfm.start_state with
    | none =>
      rw [hfold] at hlast
      simp [List.getLast?_cons] at hlast
    | some term => exact ⟨term, rfl⟩
  · intro hacc term
    rw [hacc]
    simp

theorem run_dfm_prints_input_and_verdict_witness :
    run_dfm main_machine [DFM_ONE, DFM_ZERO] (([DFM_ONE, DFM_ZERO] : List DFM_Alphabet).length : Nat) =
        (([DFM_ONE, DFM_ZERO] : List DFM_Alphabet).foldlM main_machine.trans_func_cb
            main_machine.start_state).map (fun term =>
          { next_state := term
            accept_check := decide (term = DFM_STATE_1 ∨ term = DFM_STATE_3)
            output := "The input string: " ++
              String.mk (([DFM_ONE, DFM_ZERO] : List DFM_Alphabet).map
                fun a => if a = DFM_ONE then '1' else '0') ++
              (if term = DFM_STATE_1 ∨ term = DFM_STATE_3 then " is valid!\n"
                else " is rejected!\n") }) ∧
      (main_machine.trans_func_cb = trans_func →
        main_machine.start_state ∈ [DFM_STATE_1, DFM_STATE_2, DFM_STATE_3, DFM_STATE_4] →
        ∃ term, ([DFM_ONE, DFM_ZERO] : List DFM_Alphabet).foldlM main_machine.trans_func_cb
          main_machine.start_state = some term) ∧
      (main_machine.accept_states = [DFM_STATE_1, DFM_STATE_3] →
        ∀ term, term ∈ main_machine.accept_states ↔
          (term = DFM_STATE_1 ∨ term = DFM_STATE_3)) :=
  run_dfm_prints_input_and_verdict main_machine [DFM_ONE, DFM_ZERO] (by decide) (by decide)

/-! ## The command-line adapter: what reaches run_dfm -/

/-- C14: for every string of `L` characters, `1 ≤ L ≤ 100`, all `0` or `1`,
`test_dfm_cmd_line` calls `run_dfm` with `n = L` on a buffer whose first `L`
cells are the symbols of the characters in order (`DFM_ONE` for `1`,
`DFM_ZERO` for `0`); whenever the callback returns on every step that call
returns, and the digits it writes are the input string. -/
theorem test_dfm_cmd_line_passes_symbols_of_string (dfm : DFM_Machine)
    (stack : Nat → DFM_Alphabet) (str_op : List Char)
    (h1 : 1 ≤ str_op.length) (h100 : str_op.length ≤ 100)
    (hvalid : ∀ c ∈ str_op, c = '0' ∨ c = '1') :
    ∃ input_string,
      test_dfm_cmd_line dfm stack str_op =
        CmdResult.ran input_string (str_op.length : Nat)
          (run_dfm dfm input_string (str_op.length : Nat)) ∧
      input_string.take str_op.length =
        str_op.map (fun c => if c = '1' then DFM_ONE else DFM_ZERO) ∧
      run_dfm dfm input_string (str_op.length : Nat) =
        ((str_op.map fun c => if c = '1' then DFM_ONE else DFM_ZERO).foldlM
            dfm.trans_func_cb dfm.start_state).map (fun term =>
          { next_state := term
            accept_check := term == DFM_STATE_1 || term == DFM_STATE_3
            output := "The input string: " ++ String.mk str_op ++
              (if (term == DFM_STATE_1 || term == DFM_STATE_3) then " is valid!\n"
                else " is rejected!\n") }) := by
  have htake : str_op.take 100 = str_op := List.take_of_length_le h100
  have hcmd := test_dfm_cmd_line_valid dfm stack str_op (by rw [htake]; exact hvalid)
  rw [htake] at hcmd
  have hbuf : (str_op.map symbol_of_char ++
      ((List.range 100).map stack).drop str_op.length).take str_op.length =
      str_op.map symbol_of_char := List.take_left' (by simp)
  refine ⟨_, hcmd, hbuf, ?_⟩
  rw [run_dfm_eq dfm _ str_op.length h1 (by simp), hbuf]
  have hfun : (fun c => if c = '1' then DFM_ONE else DFM_ZERO) = symbol_of_char := rfl
  rw [hfun]
  congr 1
  funext term
  simp only [verdict, render_symbols_of_chars str_op hvalid]

theorem test_dfm_cmd_line_passes_symbols_of_string_witness :
    ∃ input_string,
      test_dfm_cmd_line main_machine (fun _ => 7) ['1', '0', '1'] =
        CmdResult.ran input_string ((['1', '0', '1'] : List Char).length : Nat)
          (run_dfm main_machine input_string ((['1', '0', '1'] : List Char).length : Nat)) ∧
      input_string.take (['1', '0', '1'] : List Char).length =
        (['1', '0', '1'] : List Char).map (fun c => if c = '1' then DFM_ONE else DFM_ZERO) ∧
      run_dfm main_machine input_string ((['1', '0', '1'] : List Char).length : Nat) =
        (((['1', '0', '1'] : List Char).map
            fun c => if c = '1' then DFM_ONE else DFM_ZERO).foldlM
            main_machine.trans_func_cb main_machine.start_state).map (fun term =>
          { next_state := term
            accept_check := term == DFM_STATE_1 || term == DFM_STATE_3
            output := "The input string: " ++ String.mk ['1', '0', '1'] ++
              (if (term == DFM_STATE_1 || term == DFM_STATE_3) then " is valid!\n"
                else " is rejected!\n") }) :=
  test_dfm_cmd_line_passes_symbols_of_string main_machine (fun _ => 7) ['1', '0', '1']
    (by decide) (by decide) (by decide)

/-- C15: for every string whose first 100 characters (or all of them, when
fewer) are `0` or `1`, `test_dfm_cmd_line` calls `run_dfm` with
`n = min(length, 100)` on a buffer of 100 cells that starts with the symbols
of those characters; it writes the cells `0 .. n - 1` and no index of 100
or more; it does on the string what it does on its first 100 characters;
and on a string longer than 100 characters the buffer is exactly the first
100 symbols and `n = 100`. -/
theorem test_dfm_cmd_line_evaluates_first_100 (dfm : DFM_Machine)
    (stack : Nat → DFM_Alphabet) (str_op : List Char)
    (hvalid : ∀ c ∈ str_op.take 100, c = '0' ∨ c = '1') :
    (∃ input_string,
        test_dfm_cmd_line dfm stack str_op =
          CmdResult.ran input_string (min str_op.length 100 : Nat)
            (run_dfm dfm input_string (min str_op.length 100 : Nat)) ∧
        input_string.length = 100 ∧
        input_string.take (min str_op.length 100) =
          (str_op.take 100).map (fun c => if c = '1' then DFM_ONE else DFM_ZERO)) ∧
      cmd_line_writes str_op 100 0 = List.range (min str_op.length 100) ∧
      (∀ k ∈ cmd_line_writes str_op 100 0, k < 100) ∧
      test_dfm_cmd_line dfm stack str_op = test_dfm_cmd_line dfm stack (str_op.take 100) ∧
      (100 < str_op.length →
        test_dfm_cmd_line dfm stack str_op =
          CmdResult.ran
            ((str_op.take 100).map fun c => if c = '1' then DFM_ONE else DFM_ZERO) 100
            (run_dfm dfm
              ((str_op.take 100).map fun c => if c = '1' then DFM_ONE else DFM_ZERO) 100)) := by
  have hfun : (fun c => if c = '1' then DFM_ONE else DFM_ZERO) = symbol_of_char := rfl
  have hlen : (str_op.take 100).length = min str_op.length 100 := by
    rw [List.length_take, Nat.min_comm]
  have hcmd := test_dfm_cmd_line_valid dfm stack str_op hvalid
  rw [hlen] at hcmd
  refine ⟨⟨_, hcmd, ?_, ?_⟩, ?_, ?_, ?_, ?_⟩
  · simp only [List.length_append, List.length_map, List.length_drop, List.length_range, hlen]
    omega
  · rw [hfun]
    exact List.take_left' (by rw [List.length_map, hlen])
  · have h := cmd_line_writes_valid str_op 100 0 rfl (by simpa using hvalid)
    simp only [List.drop_zero, hlen] at h
    rw [h, List.range_eq_range']
  · exact cmd_line_writes_lt str_op 100 0
  · have h2 := test_dfm_cmd_line_valid dfm stack (str_op.take 100)
      (by rw [List.take_take, Nat.min_self]; exact hvalid)
    rw [List.take_take, Nat.min_self, hlen] at h2
    rw [hcmd, h2]
  · intro hlong
    have hmin : min str_op.length 100 = 100 := Nat.min_eq_right (Nat.le_of_lt hlong)
    rw [hmin] at hcmd
    have hdrop : ((List.range 100).map stack).drop 100 = [] :=
      List.drop_eq_nil_of_le (by simp)
    rw [hdrop, List.append_nil] at hcmd
    rw [hfun]
    exact hcmd

set_option maxRecDepth 100000 in
theorem test_dfm_cmd_line_evaluates_first_100_witness :
    (∃ input_string,
        test_dfm_cmd_line main_machine (fun _ => 7) (List.replicate 100 '1' ++ ['0', 'z']) =
          CmdResult.ran input_string
            (min (List.replicate 100 '1' ++ ['0', 'z']).length 100 : Nat)
            (run_dfm main_machine input_string
              (min (List.replicate 100 '1' ++ ['0', 'z']).length 100 : Nat)) ∧
        input_string.length = 100 ∧
        input_string.take (min (List.replicate 100 '1' ++ ['0', 'z']).length 100) =
          ((List.replicate 100 '1' ++ ['0', 'z']).take 100).map
            (fun c => if c = '1' then DFM_ONE else DFM_ZERO)) ∧
      cmd_line_writes (List.replicate 100 '1' ++ ['0', 'z']) 100 0 =
        List.range (min (List.replicate 100 '1' ++ ['0', 'z']).length 100) ∧
      (∀ k ∈ cmd_line_writes (List.replicate 100 '1' ++ ['0', 'z']) 100 0, k < 100) ∧
      test_dfm_cmd_line main_machine (fun _ => 7) (List.replicate 100 '1' ++ ['0', 'z']) =
        test_dfm_cmd_line main_machine (fun _ => 7)
          ((List.replicate 100 '1' ++ ['0', 'z']).take 100) ∧
      (100 < (List.replicate 100 '1' ++ ['0', 'z']).length →
        test_dfm_cmd_line main_machine (fun _ => 7) (List.replicate 100 '1' ++ ['0', 'z']) =
          CmdResult.ran
            (((List.replicate 100 '1' ++ ['0', 'z']).take 100).map
              fun c => if c = '1' then DFM_ONE else DFM_ZERO) 100
            (run_dfm main_machine
              (((List.replicate 100 '1' ++ ['0', 'z']).take 100).map
                fun c => if c = '1' then DFM_ONE else DFM_ZERO) 100)) :=
  test_dfm_cmd_line_evaluates_first_100 main_machine (fun _ => 7)
    (List.replicate 100 '1' ++ ['0', 'z']) (by decide)

/-- C16: for every string (the characters before the terminating NUL) with
a character other than `0` and `1` among its first 100 characters,
`test_dfm_cmd_line` writes the two error lines and nothing else, and the
character named in the second line is the leftmost character of the string
that is neither `0` nor `1`. -/
theorem test_dfm_cmd_line_names_first_invalid_character (dfm : DFM_Machine)
    (stack : Nat → DFM_Alphabet) (str_op : List Char) (hstr : Char.ofNat 0 ∉ str_op)
    (k : Nat) (c : Char) (hk : k < 100) (hc : str_op[k]? = some c)
    (hc0 : c ≠ '0') (hc1 : c ≠ '1') :
    ∃ j b, j ≤ k ∧ str_op[j]? = some b ∧ b ≠ '0' ∧ b ≠ '1' ∧
      (∀ t d, t < j → str_op[t]? = some d → d = '0' ∨ d = '1') ∧
      test_dfm_cmd_line dfm stack str_op =
        CmdResult.invalid
          ("Invalid character in input string\n" ++
            String.singleton b ++ " is not a part of the machine alphabet\n") := by
  have hklen : k < str_op.length := by
    rcases Nat.lt_or_ge k str_op.length with h | h
    · exact h
    · rw [List.getElem?_eq_none h] at hc; cases hc
  have hkbad : k < str_op.length ∧ str_at str_op k ≠ '0' ∧ str_at str_op k ≠ '1' :=
    ⟨hklen, by rw [str_at_of_getElem? str_op k c hc]; exact ⟨hc0, hc1⟩⟩
  have hex : ∃ t, t < str_op.length ∧ str_at str_op t ≠ '0' ∧ str_at str_op t ≠ '1' :=
    ⟨k, hkbad⟩
  obtain ⟨hjlen, hj0, hj1⟩ := Nat.find_spec hex
  have hjk : Nat.find hex ≤ k := Nat.find_min' hex hkbad
  have hmem := str_at_mem str_op (Nat.find hex) hjlen
  have hgood : ∀ t, t < Nat.find hex → str_at str_op t = '0' ∨ str_at str_op t = '1' := by
    intro t ht
    have hnot := Nat.find_min hex ht
    by_contra hcon
    push_neg at hcon
    exact hnot ⟨by omega, hcon.1, hcon.2⟩
  refine ⟨Nat.find hex, str_at str_op (Nat.find hex), hjk, ?_, hj0, hj1, ?_, ?_⟩
  · unfold str_at
    rw [List.getD_eq_getElem str_op (Char.ofNat 0) hjlen]
    exact List.getElem?_eq_getElem hjlen
  · intro t d ht hd
    rw [← str_at_of_getElem? str_op t d hd]
    exact hgood t ht
  · exact test_dfm_cmd_line_invalid_at dfm stack str_op (Nat.find hex) (by omega) hj0 hj1
      (fun h => hstr (h ▸ hmem)) hgood

theorem test_dfm_cmd_line_names_first_invalid_character_witness :
    ∃ j b, j ≤ 3 ∧ (['1', 'a', '0', 'b'] : List Char)[j]? = some b ∧ b ≠ '0' ∧ b ≠ '1' ∧
      (∀ t d, t < j → (['1', 'a', '0', 'b'] : List Char)[t]? = some d → d = '0' ∨ d = '1') ∧
      test_dfm_cmd_line main_machine (fun _ => 7) ['1', 'a', '0', 'b'] =
        CmdResult.invalid
          ("Invalid character in input string\n" ++
            String.singleton b ++ " is not a part of the machine alphabet\n") :=
  test_dfm_cmd_line_names_first_invalid_character main_machine (fun _ => 7)
    ['1', 'a', '0', 'b'] (by decide) 3 'b' (by decide) (by decide) (by decide) (by decide)

/-! ## Algebra of run_dfm and the fields of make_dfm -/

/-- C17: for every machine (start state, transition callback) and non-empty
sequences `u` and `v`, the terminal state of `run_dfm` on `u ++ v` is the
terminal state of `run_dfm` on `v` for the same machine started from the
terminal state reached on `u`. -/
theorem run_dfm_composes_over_concatenation (dfm : DFM_Machine) (u v : List DFM_Alphabet)
    (hu : u ≠ []) (hv : v ≠ []) :
    (run_dfm dfm (u ++ v) ((u ++ v).length : Nat)).map RunResult.next_state =
      ((run_dfm dfm u (u.length : Nat)).map RunResult.next_state).bind fun mid =>
        (run_dfm { dfm with start_state := mid } v (v.length : Nat)).map
          RunResult.next_state := by
  have hul : 1 ≤ u.length := by
    cases u with
    | nil => exact absurd rfl hu
    | cons a l => simp
  have hvl : 1 ≤ v.length := by
    cases v with
    | nil => exact absurd rfl hv
    | cons a l => simp
  rw [run_dfm_next_state_eq dfm (u ++ v) (u ++ v).length (by simp; omega) (Nat.le_refl _),
    run_dfm_next_state_eq dfm u u.length hul (Nat.le_refl _), List.take_length,
    List.take_length, List.foldlM_append]
  cases List.foldlM dfm.trans_func_cb dfm.start_state u with
  | none => rfl
  | some mid =>
    have h := run_dfm_next_state_eq { dfm with start_state := mid } v v.length hvl
      (Nat.le_refl _)
    rw [List.take_length] at h
    simp only [Option.some_bind, h]
    rfl

theorem run_dfm_composes_over_concatenation_witness :
    (run_dfm main_machine ([DFM_ONE, DFM_ONE] ++ [DFM_ZERO, DFM_ONE])
          ((([DFM_ONE, DFM_ONE] : List DFM_Alphabet) ++ [DFM_ZERO, DFM_ONE]).length : Nat)).map
        RunResult.next_state =
      ((run_dfm main_machine [DFM_ONE, DFM_ONE]
          (([DFM_ONE, DFM_ONE] : List DFM_Alphabet).length : Nat)).map
          RunResult.next_state).bind fun mid =>
        (run_dfm { main_machine with start_state := mid } [DFM_ZERO, DFM_ONE]
          (([DFM_ZERO, DFM_ONE] : List DFM_Alphabet).length : Nat)).map
          RunResult.next_state :=
  run_dfm_composes_over_concatenation main_machine [DFM_ONE, DFM_ONE] [DFM_ZERO, DFM_ONE]
    (by decide) (by decide)

/-- C18: for every start state, accept-state list and transition callback,
the machine that `make_dfm` returns has `start_state` the given start,
`accept_states` the given list, `trans_func_cb` the given callback, `states`
the four values 0, 1, 2, 3 (`DFM_STATE_1` .. `DFM_STATE_4`) and `alphabet`
the two values 0, 1 (`DFM_ZERO`, `DFM_ONE`); both sets are non-empty. -/
theorem make_dfm_fields (mem_ok : Bool) (start : DFM_States) (end_states : List DFM_States)
    (func : DFM_func_cb) :
    (∃ dfm, make_dfm true start end_states func = some dfm) ∧
      ∀ dfm, make_dfm mem_ok start end_states func = some dfm →
        dfm.start_state = start ∧ dfm.accept_states = end_states ∧
        dfm.trans_func_cb = func ∧
        dfm.states = [0, 1, 2, 3] ∧
        dfm.states = [DFM_STATE_1, DFM_STATE_2, DFM_STATE_3, DFM_STATE_4] ∧
        dfm.alphabet = [0, 1] ∧ dfm.alphabet = [DFM_ZERO, DFM_ONE] ∧
        dfm.states ≠ [] ∧ dfm.alphabet ≠ [] := by
  have hs : make_dfm_states = [0, 1, 2, 3] := by decide
  have ha : make_dfm_alphabet = [0, 1] := by decide
  refine ⟨⟨_, rfl⟩, ?_⟩
  intro dfm h
  cases mem_ok with
  | false => simp [make_dfm] at h
  | true =>
    simp only [make_dfm, if_true, Option.some.injEq] at h
    subst h
    refine ⟨rfl, rfl, rfl, hs, hs, ha, ha, ?_, ?_⟩
    · show make_dfm_states ≠ []
      rw [hs]; simp
    · show make_dfm_alphabet ≠ []
      rw [ha]; simp

end DFM
